import Mathlib

/-!
Verification of the AY chiptune replayer (ayReplayer.js, the lookahead
scheduler of the main module, and ymAyParser.js).

All JavaScript numbers appearing in the replayer are embedded as rationals;
register bytes are embedded as natural numbers.  Stateful code is embedded
as explicit state passing: the mutable envelope singleton becomes an
explicit EnvState value returned by the decode step, the scheduler becomes
a step function on a scheduler-state record.
-/

namespace AY

/-- JavaScript remainder by 1 (`phase % 1`): the result of truncating
division, so it keeps the sign of the dividend. -/
def jsMod1 (p : ℚ) : ℚ := if 0 ≤ p then p - (⌊p⌋ : ℚ) else p - (⌈p⌉ : ℚ)

lemma jsMod1_eq_of_nonneg {p : ℚ} (hp : 0 ≤ p) : jsMod1 p = p - (⌊p⌋ : ℚ) := by
  rw [jsMod1, if_pos hp]

lemma jsMod1_eq_of_neg {p : ℚ} (hp : p < 0) : jsMod1 p = p - (⌈p⌉ : ℚ) := by
  rw [jsMod1, if_neg (not_le.mpr hp)]

lemma jsMod1_nonneg_bounds {p : ℚ} (hp : 0 ≤ p) : 0 ≤ jsMod1 p ∧ jsMod1 p < 1 := by
  rw [jsMod1_eq_of_nonneg hp]
  constructor
  · have := Int.floor_le p
    have : (⌊p⌋ : ℚ) ≤ p := Int.floor_le p
    linarith
  · have := Int.lt_floor_add_one p
    linarith

lemma jsMod1_idem (p : ℚ) : jsMod1 (jsMod1 p) = jsMod1 p := by
  by_cases hp : 0 ≤ p
  · obtain ⟨h0, h1⟩ := jsMod1_nonneg_bounds hp
    rw [jsMod1_eq_of_nonneg h0]
    have hf : ⌊jsMod1 p⌋ = 0 := by
      rw [Int.floor_eq_iff]
      constructor
      · push_cast; linarith
      · push_cast; linarith
    rw [hf]
    push_cast; ring
  · push_neg at hp
    have hle : jsMod1 p ≤ 0 := by
      rw [jsMod1_eq_of_neg hp]
      have := Int.le_ceil p; linarith
    have hgt : -1 < jsMod1 p := by
      rw [jsMod1_eq_of_neg hp]
      have := Int.ceil_lt_add_one p; linarith
    rcases hle.lt_or_eq with h0 | h0
    · rw [jsMod1_eq_of_neg h0]
      have hc : ⌈jsMod1 p⌉ = 0 := by
        rw [Int.ceil_eq_iff]
        constructor
        · push_cast; linarith
        · push_cast; linarith
      rw [hc]
      push_cast; ring
    · rw [h0, jsMod1_eq_of_nonneg le_rfl]
      simp

/-- The envelope shape-to-level map of the source (function envelopeLevel):
phase is taken modulo 1, then one of four wave families is selected from
the Attack/Alternate/Hold bits of the 4-bit shape code, and the result is
clamped to the interval from 0 to 1. -/
def envelopeLevel (phase : ℚ) (shape : ℕ) : ℚ :=
  let p := jsMod1 phase
  let lvl :=
    if shape &&& 2 = 0 ∧ shape &&& 1 = 0 ∧ shape &&& 4 ≠ 0 then p
    else if shape &&& 2 = 0 ∧ shape &&& 1 ≠ 0 ∧ shape &&& 4 ≠ 0 then min 1 (p * 2)
    else if shape &&& 2 ≠ 0 ∧ shape &&& 1 = 0 then
      (if p < 1/2 then p * 2 else 1 - (p - 1/2) * 2)
    else 1 - p
  max 0 (min 1 lvl)

lemma envelopeLevel_nonneg (p : ℚ) (s : ℕ) : 0 ≤ envelopeLevel p s := by
  simp only [envelopeLevel]
  exact le_max_left _ _

lemma envelopeLevel_le_one (p : ℚ) (s : ℕ) : envelopeLevel p s ≤ 1 := by
  simp only [envelopeLevel]
  exact max_le (by norm_num) (min_le_left _ _)

/-- C8: for every envelope phase value (including values greater than 1) and
every 4-bit shape code, the level map first reduces the phase modulo 1.0
(applying it to an already reduced phase changes nothing), and its result
always lies in the interval from 0 to 1. -/
theorem c8_envelopeLevel_mod_first_and_clamped (p : ℚ) (shape : ℕ) :
    0 ≤ envelopeLevel p shape ∧ envelopeLevel p shape ≤ 1 ∧
    envelopeLevel p shape = envelopeLevel (jsMod1 p) shape := by
  refine ⟨envelopeLevel_nonneg p shape, envelopeLevel_le_one p shape, ?_⟩
  simp only [envelopeLevel, jsMod1_idem]

/-- Mutable envelope singleton of the replayer (this.env):
periodSec, shape, phase, level, lastUpdate. -/
structure EnvState where
  periodSec : ℚ
  shape : ℕ
  phase : ℚ
  level : ℚ
  lastUpdate : ℚ
deriving DecidableEq

/-- Per-voice user state (mute flag and user volume scalar). -/
structure VoiceCtrl where
  mute : Bool
  volUser : ℚ
deriving DecidableEq

/-- The user-controlled state of the replayer: the three tone voices and
the noise volume scalar. -/
structure UserControls where
  A : VoiceCtrl
  B : VoiceCtrl
  C : VoiceCtrl
  noiseVolUser : ℚ
deriving DecidableEq

/-- The values applyRegs pushes to the audio graph in one call:
three oscillator frequencies, three tone gains, the bandpass center
frequency of the noise path and the noise gain. -/
structure VoiceTargets where
  freqA : ℚ
  freqB : ℚ
  freqC : ℚ
  gainA : ℚ
  gainB : ℚ
  gainC : ℚ
  noiseFreq : ℚ
  noiseGain : ℚ
deriving DecidableEq

/-- The chip master clock used by the source (1 MHz, CPC approximation). -/
def clock : ℚ := 1000000

/-- Low nibble of a volume register (static level 0..15). -/
def staticVol (regs : ℕ → ℕ) (r : ℕ) : ℕ := regs r &&& 15

/-- 12-bit tone period: low byte at index lo, low nibble of index hi. -/
def tonePeriod (regs : ℕ → ℕ) (lo hi : ℕ) : ℕ := ((regs hi &&& 15) <<< 8) ||| regs lo

/-- Tone frequency from a 12-bit period: clock / (16 * period), with the
0.0001 Hz floor used by the source when the period is zero. -/
def toneFreq (per : ℕ) : ℚ := if per ≠ 0 then clock / (16 * (per : ℚ)) else 1/10000

/-- Raw 16-bit envelope period from registers 12 (high) and 11 (low). -/
def envPeriodRawOf (regs : ℕ → ℕ) : ℕ := (regs 12 <<< 8) ||| regs 11

/-- Envelope period after the `|| 1` substitution of the source. -/
def envPeriodOf (regs : ℕ → ℕ) : ℕ :=
  if envPeriodRawOf regs = 0 then 1 else envPeriodRawOf regs

/-- 4-bit envelope shape from register 13. -/
def envShapeOf (regs : ℕ → ℕ) : ℕ := regs 13 &&& 15

/-- Derived envelope period in seconds: envPeriod / clock * 16 * 2. -/
def envPeriodSecOf (regs : ℕ → ℕ) : ℚ := (envPeriodOf regs : ℚ) / clock * 16 * 2

/-- Divisor of the phase-advance step, with the `|| 0.001` guard of the
source. -/
def phaseDivisor (e : EnvState) : ℚ := if e.periodSec = 0 then 1/1000 else e.periodSec

/-- The envelope update performed at the start of applyRegs: re-trigger
(reset phase to 0 and level to 1, record the reset time) when the shape or
the derived period changed beyond the 1e-6 tolerance, otherwise advance the
phase by elapsed / period and recompute the level.  The source treats a
zero lastUpdate as "no previous update" (elapsed 0). -/
def envStep (regs : ℕ → ℕ) (e : EnvState) (now : ℚ) : EnvState :=
  if envShapeOf regs ≠ e.shape ∨ 1/1000000 < |e.periodSec - envPeriodSecOf regs| then
    { periodSec := envPeriodSecOf regs, shape := envShapeOf regs,
      phase := 0, level := 1, lastUpdate := now }
  else
    let lu := if e.lastUpdate = 0 then now else e.lastUpdate
    let phase1 := e.phase + (now - lu) / phaseDivisor e
    { periodSec := e.periodSec, shape := e.shape, phase := phase1,
      level := envelopeLevel phase1 e.shape, lastUpdate := now }

/-- Per-channel gain factor before the user volume scalar: the envelope
level when bit 4 of the volume register is set, else static level / 15. -/
def chanGainFactor (regs : ℕ → ℕ) (r : ℕ) (e1 : EnvState) : ℚ :=
  if regs r &&& 16 ≠ 0 then e1.level else (staticVol regs r : ℚ) / 15

/-- The decode/apply operation of the source (method applyRegs): reads the
14 register bytes, updates the envelope state, and produces the frequency
and gain targets pushed to the three tone paths and the noise path. -/
def applyRegs (regs : ℕ → ℕ) (u : UserControls) (e : EnvState) (now : ℚ) :
    VoiceTargets × EnvState :=
  let e1 := envStep regs e now
  ({ freqA := toneFreq (tonePeriod regs 0 1)
     freqB := toneFreq (tonePeriod regs 2 3)
     freqC := toneFreq (tonePeriod regs 4 5)
     gainA := if regs 7 &&& 1 = 0 ∧ (regs 8 &&& 16 ≠ 0 ∨ 0 < staticVol regs 8) ∧
                 u.A.mute = false
              then chanGainFactor regs 8 e1 * u.A.volUser else 0
     gainB := if regs 7 &&& 2 = 0 ∧ (regs 9 &&& 16 ≠ 0 ∨ 0 < staticVol regs 9) ∧
                 u.B.mute = false
              then chanGainFactor regs 9 e1 * u.B.volUser else 0
     gainC := if regs 7 &&& 4 = 0 ∧ (regs 10 &&& 16 ≠ 0 ∨ 0 < staticVol regs 10) ∧
                 u.C.mute = false
              then chanGainFactor regs 10 e1 * u.C.volUser else 0
     noiseFreq := ((regs 6 &&& 31 : ℕ) : ℚ) * 200 + 1000
     noiseGain := if (regs 7 &&& 8 = 0 ∧ (regs 8 &&& 16 ≠ 0 ∨ 0 < staticVol regs 8) ∧
                       u.A.mute = false) ∨
                     (regs 7 &&& 16 = 0 ∧ (regs 9 &&& 16 ≠ 0 ∨ 0 < staticVol regs 9) ∧
                       u.B.mute = false) ∨
                     (regs 7 &&& 32 = 0 ∧ (regs 10 &&& 16 ≠ 0 ∨ 0 < staticVol regs 10) ∧
                       u.C.mute = false)
                  then u.noiseVolUser else 0 },
   e1)

/-- The user-control update (method setUserControls): mute flags are set
from the given booleans, a provided volume scalar replaces the stored one
verbatim, an absent one keeps the stored value (the `??` fallback). -/
def setUserControls (u : UserControls) (muteA muteB muteC : Bool)
    (volA volB volC volN : Option ℚ) : UserControls :=
  { A := ⟨muteA, volA.getD u.A.volUser⟩
    B := ⟨muteB, volB.getD u.B.volUser⟩
    C := ⟨muteC, volC.getD u.C.volUser⟩
    noiseVolUser := volN.getD u.noiseVolUser }

/-- Envelope state created by the replayer constructor. -/
def initEnv : EnvState := ⟨1/20, 0, 0, 0, 0⟩

/-- User-control state created by the replayer constructor: volume scalar 1
per tone voice, 0.15 for the noise path, nothing muted. -/
def initControls : UserControls := ⟨⟨false, 1⟩, ⟨false, 1⟩, ⟨false, 1⟩, 3/20⟩

lemma envStep_level_nonneg (regs : ℕ → ℕ) (e : EnvState) (now : ℚ) :
    0 ≤ (envStep regs e now).level := by
  rw [envStep]
  split
  · norm_num
  · exact envelopeLevel_nonneg _ _

lemma envStep_level_le_one (regs : ℕ → ℕ) (e : EnvState) (now : ℚ) :
    (envStep regs e now).level ≤ 1 := by
  rw [envStep]
  split
  · norm_num
  · exact envelopeLevel_le_one _ _

lemma chanGainFactor_nonneg (regs : ℕ → ℕ) (r : ℕ) (e1 : EnvState)
    (h0 : 0 ≤ e1.level) : 0 ≤ chanGainFactor regs r e1 := by
  rw [chanGainFactor]
  split
  · exact h0
  · positivity

lemma chanGainFactor_le_one (regs : ℕ → ℕ) (r : ℕ) (e1 : EnvState)
    (h1 : e1.level ≤ 1) : chanGainFactor regs r e1 ≤ 1 := by
  rw [chanGainFactor]
  split
  · exact h1
  · rw [div_le_one (by norm_num)]
    have h := Nat.and_le_right (n := regs r) (m := 15)
    rw [staticVol]
    exact_mod_cast h.trans (by norm_num)

lemma toneFreq_pos (per : ℕ) : 0 < toneFreq per := by
  rw [toneFreq]
  split
  · have hper : 0 < (per : ℚ) := by
      rename_i h
      exact_mod_cast Nat.pos_of_ne_zero h
    rw [clock]
    positivity
  · norm_num

lemma mul_mem01 {a b : ℚ} (ha0 : 0 ≤ a) (ha1 : a ≤ 1) (hb0 : 0 ≤ b) (hb1 : b ≤ 1) :
    0 ≤ a * b ∧ a * b ≤ 1 :=
  ⟨mul_nonneg ha0 hb0, by nlinarith⟩

/-- C1: for every 14-byte register frame and every envelope state, applyRegs
is a total function; with the user volume scalars in their 0..1 range, every
gain it applies to the three tone paths and to the noise path lies in the
interval from 0 to 1, and every frequency it applies (the three oscillator
frequencies and the noise bandpass center) is strictly positive.  (The
source multiplies the register-derived 0..1 gain factor by the raw user
scalar; the 0..1 bound on the scalars covers the constructor defaults and
every in-range slider value, see the C5 development for the unclamped
out-of-range case.) -/
theorem c1_applyRegs_total_gains_bounded_freqs_pos
    (regs : ℕ → ℕ) (u : UserControls) (e : EnvState) (now : ℚ)
    (hA0 : 0 ≤ u.A.volUser) (hA1 : u.A.volUser ≤ 1)
    (hB0 : 0 ≤ u.B.volUser) (hB1 : u.B.volUser ≤ 1)
    (hC0 : 0 ≤ u.C.volUser) (hC1 : u.C.volUser ≤ 1)
    (hN0 : 0 ≤ u.noiseVolUser) (hN1 : u.noiseVolUser ≤ 1) :
    (0 ≤ (applyRegs regs u e now).1.gainA ∧ (applyRegs regs u e now).1.gainA ≤ 1) ∧
    (0 ≤ (applyRegs regs u e now).1.gainB ∧ (applyRegs regs u e now).1.gainB ≤ 1) ∧
    (0 ≤ (applyRegs regs u e now).1.gainC ∧ (applyRegs regs u e now).1.gainC ≤ 1) ∧
    (0 ≤ (applyRegs regs u e now).1.noiseGain ∧ (applyRegs regs u e now).1.noiseGain ≤ 1) ∧
    0 < (applyRegs regs u e now).1.freqA ∧
    0 < (applyRegs regs u e now).1.freqB ∧
    0 < (applyRegs regs u e now).1.freqC ∧
    0 < (applyRegs regs u e now).1.noiseFreq := by
  have hl0 := envStep_level_nonneg regs e now
  have hl1 := envStep_level_le_one regs e now
  dsimp only [applyRegs]
  refine ⟨?_, ?_, ?_, ?_, toneFreq_pos _, toneFreq_pos _, toneFreq_pos _, by positivity⟩
  · split
    · exact mul_mem01 (chanGainFactor_nonneg _ _ _ hl0) (chanGainFactor_le_one _ _ _ hl1) hA0 hA1
    · norm_num
  · split
    · exact mul_mem01 (chanGainFactor_nonneg _ _ _ hl0) (chanGainFactor_le_one _ _ _ hl1) hB0 hB1
    · norm_num
  · split
    · exact mul_mem01 (chanGainFactor_nonneg _ _ _ hl0) (chanGainFactor_le_one _ _ _ hl1) hC0 hC1
    · norm_num
  · split
    · exact ⟨hN0, hN1⟩
    · norm_num

theorem c1_witness :
    (0 : ℚ) ≤ initControls.A.volUser ∧
    ((0 ≤ (applyRegs (fun _ => 0) initControls initEnv 0).1.gainA ∧
        (applyRegs (fun _ => 0) initControls initEnv 0).1.gainA ≤ 1) ∧
      (0 ≤ (applyRegs (fun _ => 0) initControls initEnv 0).1.gainB ∧
        (applyRegs (fun _ => 0) initControls initEnv 0).1.gainB ≤ 1) ∧
      (0 ≤ (applyRegs (fun _ => 0) initControls initEnv 0).1.gainC ∧
        (applyRegs (fun _ => 0) initControls initEnv 0).1.gainC ≤ 1) ∧
      (0 ≤ (applyRegs (fun _ => 0) initControls initEnv 0).1.noiseGain ∧
        (applyRegs (fun _ => 0) initControls initEnv 0).1.noiseGain ≤ 1) ∧
      0 < (applyRegs (fun _ => 0) initControls initEnv 0).1.freqA ∧
      0 < (applyRegs (fun _ => 0) initControls initEnv 0).1.freqB ∧
      0 < (applyRegs (fun _ => 0) initControls initEnv 0).1.freqC ∧
      0 < (applyRegs (fun _ => 0) initControls initEnv 0).1.noiseFreq) :=
  ⟨by norm_num [initControls],
   c1_applyRegs_total_gains_bounded_freqs_pos (fun _ => 0) initControls initEnv 0
     (by norm_num [initControls]) (by norm_num [initControls])
     (by norm_num [initControls]) (by norm_num [initControls])
     (by norm_num [initControls]) (by norm_num [initControls])
     (by norm_num [initControls]) (by norm_num [initControls])⟩

lemma envPeriodOf_pos (regs : ℕ → ℕ) : 0 < envPeriodOf regs := by
  rw [envPeriodOf]
  split
  · norm_num
  · exact Nat.pos_of_ne_zero ‹_›

/-- C10: the 16-bit envelope period read from registers 11 and 12 is
substituted by 1 when it is 0 (it becomes max 1 raw), so the derived
envelope period in seconds is strictly positive; independently the
phase-advance divisor of envStep carries the 0.001 fallback and is nonzero
for every envelope state, so the envelope phase update never divides by
zero for any register contents. -/
theorem c10_envelope_divisor_never_zero (regs : ℕ → ℕ) (e : EnvState) :
    envPeriodOf regs = max 1 (envPeriodRawOf regs) ∧
    0 < envPeriodSecOf regs ∧
    phaseDivisor e ≠ 0 := by
  refine ⟨?_, ?_, ?_⟩
  · rw [envPeriodOf]
    split <;> omega
  · have h := envPeriodOf_pos regs
    have h1 : 0 < (envPeriodOf regs : ℚ) := by exact_mod_cast h
    rw [envPeriodSecOf, clock]
    positivity
  · rw [phaseDivisor]
    split
    · norm_num
    · exact ‹_›

/-- C4: for a decode call following a previous one (nonzero lastUpdate),
the new envelope state is: on a shape change or a derived-period change
beyond the 1e-6 tolerance, phase 0, level 1.0 and the reset time recorded;
otherwise the phase advances by elapsed/period since the last update and
the level is recomputed from the new phase and the shape by envelopeLevel
(the four wave-family map), and the resulting level lies in 0..1. -/
theorem c4_envelope_retrigger_policy
    (regs : ℕ → ℕ) (u : UserControls) (e : EnvState) (now : ℚ)
    (hlu : e.lastUpdate ≠ 0) :
    (applyRegs regs u e now).2 =
      (if envShapeOf regs ≠ e.shape ∨ 1/1000000 < |e.periodSec - envPeriodSecOf regs| then
        { periodSec := envPeriodSecOf regs, shape := envShapeOf regs,
          phase := 0, level := 1, lastUpdate := now }
      else
        { periodSec := e.periodSec, shape := e.shape,
          phase := e.phase + (now - e.lastUpdate) / phaseDivisor e,
          level := envelopeLevel (e.phase + (now - e.lastUpdate) / phaseDivisor e) e.shape,
          lastUpdate := now }) ∧
    0 ≤ (applyRegs regs u e now).2.level ∧ (applyRegs regs u e now).2.level ≤ 1 := by
  have h2 : (applyRegs regs u e now).2 = envStep regs e now := rfl
  rw [h2]
  refine ⟨?_, envStep_level_nonneg regs e now, envStep_level_le_one regs e now⟩
  rw [envStep]
  split
  · rfl
  · rfl

theorem c4_witness :
    (applyRegs (fun _ => 0) initControls ⟨1/20, 0, 0, 0, 1⟩ 2).2 =
      (if envShapeOf (fun _ => 0) ≠ (⟨1/20, 0, 0, 0, 1⟩ : EnvState).shape ∨
          1/1000000 < |(⟨1/20, 0, 0, 0, 1⟩ : EnvState).periodSec -
            envPeriodSecOf (fun _ => 0)| then
        { periodSec := envPeriodSecOf (fun _ => 0), shape := envShapeOf (fun _ => 0),
          phase := 0, level := 1, lastUpdate := 2 }
      else
        { periodSec := (⟨1/20, 0, 0, 0, 1⟩ : EnvState).periodSec,
          shape := (⟨1/20, 0, 0, 0, 1⟩ : EnvState).shape,
          phase := (⟨1/20, 0, 0, 0, 1⟩ : EnvState).phase +
            (2 - (⟨1/20, 0, 0, 0, 1⟩ : EnvState).lastUpdate) /
              phaseDivisor ⟨1/20, 0, 0, 0, 1⟩,
          level := envelopeLevel ((⟨1/20, 0, 0, 0, 1⟩ : EnvState).phase +
            (2 - (⟨1/20, 0, 0, 0, 1⟩ : EnvState).lastUpdate) /
              phaseDivisor ⟨1/20, 0, 0, 0, 1⟩) (⟨1/20, 0, 0, 0, 1⟩ : EnvState).shape,
          lastUpdate := 2 }) ∧
    0 ≤ (applyRegs (fun _ => 0) initControls ⟨1/20, 0, 0, 0, 1⟩ 2).2.level ∧
    (applyRegs (fun _ => 0) initControls ⟨1/20, 0, 0, 0, 1⟩ 2).2.level ≤ 1 :=
  c4_envelope_retrigger_policy (fun _ => 0) initControls ⟨1/20, 0, 0, 0, 1⟩ 2 (by norm_num)

set_option maxRecDepth 10000 in
lemma shl8_or_eq : ∀ a < 16, ∀ b < 256, (a <<< 8) ||| b = a * 256 + b := by decide

lemma and15_eq_mod (x : ℕ) : x &&& 15 = x % 16 := Nat.and_pow_two_sub_one_eq_mod x 4

lemma tonePeriod_eq (regs : ℕ → ℕ) (lo hi : ℕ) (hlo : regs lo < 256) :
    tonePeriod regs lo hi = (regs hi % 16) * 256 + regs lo := by
  rw [tonePeriod, and15_eq_mod]
  exact shl8_or_eq _ (Nat.mod_lt _ (by norm_num)) _ hlo

/-- C3: the tone period of a channel is the 12-bit value built from the low
byte and the low nibble of the following byte, the applied frequency is
clock / (16 * period) for a nonzero period and the fixed 1/10000 Hz floor
(a positive rational, so neither infinity nor NaN) for a zero period; and
the gain computation (all four gains and the updated envelope state) does
not depend on the tone-period registers 0..5 at all, so the floor
substitution cannot affect it. -/
theorem c3_tone_period_frequency_and_gain_independence
    (regs regs2 : ℕ → ℕ) (u : UserControls) (e : EnvState) (now : ℚ)
    (hb : ∀ i, regs i < 256)
    (hagree : ∀ i, 6 ≤ i → i ≤ 13 → regs2 i = regs i) :
    ((applyRegs regs u e now).1.freqA =
      if (regs 1 % 16) * 256 + regs 0 ≠ 0 then
        clock / (16 * (((regs 1 % 16) * 256 + regs 0 : ℕ) : ℚ)) else 1/10000) ∧
    ((applyRegs regs u e now).1.freqB =
      if (regs 3 % 16) * 256 + regs 2 ≠ 0 then
        clock / (16 * (((regs 3 % 16) * 256 + regs 2 : ℕ) : ℚ)) else 1/10000) ∧
    ((applyRegs regs u e now).1.freqC =
      if (regs 5 % 16) * 256 + regs 4 ≠ 0 then
        clock / (16 * (((regs 5 % 16) * 256 + regs 4 : ℕ) : ℚ)) else 1/10000) ∧
    (0:ℚ) < 1/10000 ∧
    (applyRegs regs2 u e now).1.gainA = (applyRegs regs u e now).1.gainA ∧
    (applyRegs regs2 u e now).1.gainB = (applyRegs regs u e now).1.gainB ∧
    (applyRegs regs2 u e now).1.gainC = (applyRegs regs u e now).1.gainC ∧
    (applyRegs regs2 u e now).1.noiseGain = (applyRegs regs u e now).1.noiseGain ∧
    (applyRegs regs2 u e now).2 = (applyRegs regs u e now).2 := by
  have e6 := hagree 6 (by norm_num) (by norm_num)
  have e7 := hagree 7 (by norm_num) (by norm_num)
  have e8 := hagree 8 (by norm_num) (by norm_num)
  have e9 := hagree 9 (by norm_num) (by norm_num)
  have e10 := hagree 10 (by norm_num) (by norm_num)
  have e11 := hagree 11 (by norm_num) (by norm_num)
  have e12 := hagree 12 (by norm_num) (by norm_num)
  have e13 := hagree 13 (by norm_num) (by norm_num)
  have henv : envStep regs2 e now = envStep regs e now := by
    simp only [envStep, envShapeOf, envPeriodSecOf, envPeriodOf, envPeriodRawOf,
      e11, e12, e13]
  refine ⟨?_, ?_, ?_, by norm_num, ?_, ?_, ?_, ?_, ?_⟩
  · dsimp only [applyRegs]
    rw [toneFreq, tonePeriod_eq regs 0 1 (hb 0)]
  · dsimp only [applyRegs]
    rw [toneFreq, tonePeriod_eq regs 2 3 (hb 2)]
  · dsimp only [applyRegs]
    rw [toneFreq, tonePeriod_eq regs 4 5 (hb 4)]
  · dsimp only [applyRegs]
    simp only [henv, chanGainFactor, staticVol, e7, e8]
  · dsimp only [applyRegs]
    simp only [henv, chanGainFactor, staticVol, e7, e9]
  · dsimp only [applyRegs]
    simp only [henv, chanGainFactor, staticVol, e7, e10]
  · dsimp only [applyRegs]
    simp only [staticVol, e7, e8, e9, e10]
  · dsimp only [applyRegs]
    exact henv

theorem c3_witness :
    (((applyRegs (fun _ => 0) initControls initEnv 0).1.freqA =
      if ((fun _ => 0) 1 % 16) * 256 + (fun _ => 0) 0 ≠ 0 then
        clock / (16 * ((((fun _ => 0) 1 % 16) * 256 + (fun _ => 0) 0 : ℕ) : ℚ))
      else 1/10000) ∧
    ((applyRegs (fun _ => 0) initControls initEnv 0).1.freqB =
      if ((fun _ => 0) 3 % 16) * 256 + (fun _ => 0) 2 ≠ 0 then
        clock / (16 * ((((fun _ => 0) 3 % 16) * 256 + (fun _ => 0) 2 : ℕ) : ℚ))
      else 1/10000) ∧
    ((applyRegs (fun _ => 0) initControls initEnv 0).1.freqC =
      if ((fun _ => 0) 5 % 16) * 256 + (fun _ => 0) 4 ≠ 0 then
        clock / (16 * ((((fun _ => 0) 5 % 16) * 256 + (fun _ => 0) 4 : ℕ) : ℚ))
      else 1/10000) ∧
    (0:ℚ) < 1/10000 ∧
    (applyRegs (fun i => if i ≤ 5 then 7 else 0) initControls initEnv 0).1.gainA =
      (applyRegs (fun _ => 0) initControls initEnv 0).1.gainA ∧
    (applyRegs (fun i => if i ≤ 5 then 7 else 0) initControls initEnv 0).1.gainB =
      (applyRegs (fun _ => 0) initControls initEnv 0).1.gainB ∧
    (applyRegs (fun i => if i ≤ 5 then 7 else 0) initControls initEnv 0).1.gainC =
      (applyRegs (fun _ => 0) initControls initEnv 0).1.gainC ∧
    (applyRegs (fun i => if i ≤ 5 then 7 else 0) initControls initEnv 0).1.noiseGain =
      (applyRegs (fun _ => 0) initControls initEnv 0).1.noiseGain ∧
    (applyRegs (fun i => if i ≤ 5 then 7 else 0) initControls initEnv 0).2 =
      (applyRegs (fun _ => 0) initControls initEnv 0).2) :=
  c3_tone_period_frequency_and_gain_independence (fun _ => 0)
    (fun i => if i ≤ 5 then 7 else 0) initControls initEnv 0
    (fun _ => by norm_num)
    (fun i h6 _ => by
      show (if i ≤ 5 then 7 else 0) = 0
      rw [if_neg (by omega : ¬ i ≤ 5)])

/-- C5 counterexample: setUserControls stores the out-of-range volume
scalar 2 verbatim (no clamping, no rejection), and applyRegs then applies
the tone-A gain 2, outside the 0..1 interval, to the voice bank: neither
operation clamps. -/
theorem c5_counterexample :
    (setUserControls initControls false false false (some 2) none none none).A.volUser = 2 ∧
    (applyRegs (fun i => if i = 8 then 15 else 0)
        (setUserControls initControls false false false (some 2) none none none)
        initEnv 0).1.gainA = 2 := by
  constructor
  · rfl
  · norm_num [applyRegs, envStep, chanGainFactor, staticVol, envPeriodSecOf, envPeriodOf,
      envPeriodRawOf, envShapeOf, setUserControls, initControls, initEnv, phaseDivisor, clock,
      (by decide : (15:ℕ) &&& 16 = 0), (by decide : (15:ℕ) &&& 15 = 15),
      (by decide : (0:ℕ) &&& 1 = 0), (by decide : (0:ℕ) &&& 15 = 0),
      (by decide : ((0:ℕ) <<< 8) ||| 0 = 0),
      abs_of_nonneg (by norm_num : (0:ℚ) ≤ 3123/62500)]

/-- C5 amended: the user-control update always succeeds and stores the
given volume scalars verbatim, without rejecting or clamping them; the
register-derived gain factor applied by the voice bank lies in 0..1, so
each applied gain is nonnegative and bounded by the corresponding stored
user scalar, but it is not clamped to 0..1 (it stays in 0..1 only when the
scalar does). -/
theorem c5_amended_no_clamping_gains_bounded_by_user_volume
    (u : UserControls) (mA mB mC : Bool) (vA vB vC vN : ℚ)
    (regs : ℕ → ℕ) (e : EnvState) (now : ℚ)
    (hA : 0 ≤ u.A.volUser) (hB : 0 ≤ u.B.volUser) (hC : 0 ≤ u.C.volUser)
    (hN : 0 ≤ u.noiseVolUser) :
    (setUserControls u mA mB mC (some vA) (some vB) (some vC) (some vN)).A.volUser = vA ∧
    (setUserControls u mA mB mC (some vA) (some vB) (some vC) (some vN)).B.volUser = vB ∧
    (setUserControls u mA mB mC (some vA) (some vB) (some vC) (some vN)).C.volUser = vC ∧
    (setUserControls u mA mB mC (some vA) (some vB) (some vC) (some vN)).noiseVolUser = vN ∧
    (0 ≤ (applyRegs regs u e now).1.gainA ∧
      (applyRegs regs u e now).1.gainA ≤ u.A.volUser) ∧
    (0 ≤ (applyRegs regs u e now).1.gainB ∧
      (applyRegs regs u e now).1.gainB ≤ u.B.volUser) ∧
    (0 ≤ (applyRegs regs u e now).1.gainC ∧
      (applyRegs regs u e now).1.gainC ≤ u.C.volUser) ∧
    (0 ≤ (applyRegs regs u e now).1.noiseGain ∧
      (applyRegs regs u e now).1.noiseGain ≤ u.noiseVolUser) := by
  have hl0 := envStep_level_nonneg regs e now
  have hl1 := envStep_level_le_one regs e now
  refine ⟨rfl, rfl, rfl, rfl, ?_, ?_, ?_, ?_⟩ <;> dsimp only [applyRegs]
  · split
    · exact ⟨mul_nonneg (chanGainFactor_nonneg _ _ _ hl0) hA,
        mul_le_of_le_one_left hA (chanGainFactor_le_one _ _ _ hl1)⟩
    · exact ⟨le_refl 0, hA⟩
  · split
    · exact ⟨mul_nonneg (chanGainFactor_nonneg _ _ _ hl0) hB,
        mul_le_of_le_one_left hB (chanGainFactor_le_one _ _ _ hl1)⟩
    · exact ⟨le_refl 0, hB⟩
  · split
    · exact ⟨mul_nonneg (chanGainFactor_nonneg _ _ _ hl0) hC,
        mul_le_of_le_one_left hC (chanGainFactor_le_one _ _ _ hl1)⟩
    · exact ⟨le_refl 0, hC⟩
  · split
    · exact ⟨hN, le_refl _⟩
    · exact ⟨le_refl 0, hN⟩

theorem c5_witness :
    ((setUserControls initControls false false false (some 2) (some 1) (some 1)
        (some 1)).A.volUser = 2 ∧
    (setUserControls initControls false false false (some 2) (some 1) (some 1)
        (some 1)).B.volUser = 1 ∧
    (setUserControls initControls false false false (some 2) (some 1) (some 1)
        (some 1)).C.volUser = 1 ∧
    (setUserControls initControls false false false (some 2) (some 1) (some 1)
        (some 1)).noiseVolUser = 1 ∧
    (0 ≤ (applyRegs (fun _ => 0) initControls initEnv 0).1.gainA ∧
      (applyRegs (fun _ => 0) initControls initEnv 0).1.gainA ≤
        initControls.A.volUser) ∧
    (0 ≤ (applyRegs (fun _ => 0) initControls initEnv 0).1.gainB ∧
      (applyRegs (fun _ => 0) initControls initEnv 0).1.gainB ≤
        initControls.B.volUser) ∧
    (0 ≤ (applyRegs (fun _ => 0) initControls initEnv 0).1.gainC ∧
      (applyRegs (fun _ => 0) initControls initEnv 0).1.gainC ≤
        initControls.C.volUser) ∧
    (0 ≤ (applyRegs (fun _ => 0) initControls initEnv 0).1.noiseGain ∧
      (applyRegs (fun _ => 0) initControls initEnv 0).1.noiseGain ≤
        initControls.noiseVolUser)) :=
  c5_amended_no_clamping_gains_bounded_by_user_volume initControls false false false
    2 1 1 1 (fun _ => 0) initEnv 0
    (by norm_num [initControls]) (by norm_num [initControls])
    (by norm_num [initControls]) (by norm_num [initControls])

lemma envStep_else (regs : ℕ → ℕ) (e : EnvState) (now : ℚ)
    (hsh : envShapeOf regs = e.shape)
    (htol : |e.periodSec - envPeriodSecOf regs| ≤ 1/1000000)
    (hlu : e.lastUpdate ≠ 0) :
    envStep regs e now =
      { periodSec := e.periodSec, shape := e.shape,
        phase := e.phase + (now - e.lastUpdate) / phaseDivisor e,
        level := envelopeLevel (e.phase + (now - e.lastUpdate) / phaseDivisor e) e.shape,
        lastUpdate := now } := by
  rw [envStep, if_neg (by push_neg; exact ⟨hsh, not_lt.mp (not_lt.mpr htol)⟩)]
  simp only [if_neg hlu]

lemma clamp01_lip (a b : ℚ) : |max 0 (min 1 a) - max 0 (min 1 b)| ≤ |a - b| := by
  have h1 : a - b ≤ |a - b| := le_abs_self _
  have h2 : b - a ≤ |a - b| := by rw [abs_sub_comm]; exact le_abs_self _
  have h3 : 0 ≤ |a - b| := abs_nonneg _
  rw [abs_sub_le_iff]
  constructor <;> · simp only [max_def, min_def]; split_ifs <;> linarith

lemma min1_lip (a b : ℚ) : |min 1 a - min 1 b| ≤ |a - b| := by
  have h1 : a - b ≤ |a - b| := le_abs_self _
  have h2 : b - a ≤ |a - b| := by rw [abs_sub_comm]; exact le_abs_self _
  have h3 : 0 ≤ |a - b| := abs_nonneg _
  rw [abs_sub_le_iff]
  constructor <;> · simp only [min_def]; split_ifs <;> linarith

lemma tri_lip (a b : ℚ) :
    |(if a < 1/2 then a * 2 else 1 - (a - 1/2) * 2) -
      (if b < 1/2 then b * 2 else 1 - (b - 1/2) * 2)| ≤ 2 * |a - b| := by
  have h1 : a - b ≤ |a - b| := le_abs_self _
  have h2 : b - a ≤ |a - b| := by rw [abs_sub_comm]; exact le_abs_self _
  have h3 : 0 ≤ |a - b| := abs_nonneg _
  rw [abs_sub_le_iff]
  constructor <;> · split_ifs <;> linarith

/-- Within one envelope cycle (equal floors of the two phases), the level
mapping is 2-Lipschitz in the phase, hence continuous there; the only
discontinuities are at the cycle boundaries where the phase wraps. -/
lemma envelopeLevel_lip (s : ℕ) (p q : ℚ) (hp : 0 ≤ p) (hq : 0 ≤ q)
    (hfl : ⌊p⌋ = ⌊q⌋) :
    |envelopeLevel p s - envelopeLevel q s| ≤ 2 * |p - q| := by
  have hpq : jsMod1 p - jsMod1 q = p - q := by
    rw [jsMod1_eq_of_nonneg hp, jsMod1_eq_of_nonneg hq, hfl]
    ring
  have habs : |jsMod1 p - jsMod1 q| = |p - q| := by rw [hpq]
  have hnn : 0 ≤ |p - q| := abs_nonneg _
  simp only [envelopeLevel]
  by_cases hc1 : s &&& 2 = 0 ∧ s &&& 1 = 0 ∧ s &&& 4 ≠ 0
  · rw [if_pos hc1, if_pos hc1]
    refine (clamp01_lip _ _).trans ?_
    rw [habs]; linarith
  · rw [if_neg hc1, if_neg hc1]
    by_cases hc2 : s &&& 2 = 0 ∧ s &&& 1 ≠ 0 ∧ s &&& 4 ≠ 0
    · rw [if_pos hc2, if_pos hc2]
      refine (clamp01_lip _ _).trans ((min1_lip _ _).trans ?_)
      have : jsMod1 p * 2 - jsMod1 q * 2 = 2 * (jsMod1 p - jsMod1 q) := by ring
      rw [this, abs_mul, abs_two, hpq]
    · rw [if_neg hc2, if_neg hc2]
      by_cases hc3 : s &&& 2 ≠ 0 ∧ s &&& 1 = 0
      · rw [if_pos hc3, if_pos hc3]
        refine (clamp01_lip _ _).trans ((tri_lip _ _).trans ?_)
        rw [habs]
      · rw [if_neg hc3, if_neg hc3]
        refine (clamp01_lip _ _).trans ?_
        have : 1 - jsMod1 p - (1 - jsMod1 q) = -(jsMod1 p - jsMod1 q) := by ring
        rw [this, abs_neg, habs]; linarith

/-- C7: when shape and derived period are unchanged between two consecutive
decode calls (and the audio clock advanced), the envelope phase strictly
increases (the source accumulates phase without wrapping it; wrapping
happens modulo 1 inside the level map), and within any single cycle the
level is a 2-Lipschitz, hence continuous, function of the phase — the only
discontinuities sit at the cycle boundaries of the wave families. -/
theorem c7_phase_monotone_and_level_continuous
    (regs : ℕ → ℕ) (u : UserControls) (e : EnvState) (now : ℚ) (s : ℕ) (p q : ℚ)
    (hlu : e.lastUpdate ≠ 0) (hlt : e.lastUpdate < now) (hper : 0 < e.periodSec)
    (hsh : envShapeOf regs = e.shape)
    (htol : |e.periodSec - envPeriodSecOf regs| ≤ 1/1000000)
    (hp : 0 ≤ p) (hq : 0 ≤ q) (hfl : ⌊p⌋ = ⌊q⌋) :
    e.phase < (applyRegs regs u e now).2.phase ∧
    |envelopeLevel p s - envelopeLevel q s| ≤ 2 * |p - q| := by
  refine ⟨?_, envelopeLevel_lip s p q hp hq hfl⟩
  have h2 : (applyRegs regs u e now).2 = envStep regs e now := rfl
  rw [h2, envStep_else regs e now hsh htol hlu]
  have hdiv : phaseDivisor e = e.periodSec := by
    rw [phaseDivisor, if_neg hper.ne']
  rw [hdiv]
  have : 0 < (now - e.lastUpdate) / e.periodSec :=
    div_pos (by linarith) hper
  dsimp only []
  linarith

theorem c7_witness :
    ((⟨1/31250, 0, 0, 0, 1⟩ : EnvState).phase <
      (applyRegs (fun _ => 0) initControls ⟨1/31250, 0, 0, 0, 1⟩ 2).2.phase ∧
    |envelopeLevel (3/2) 4 - envelopeLevel (5/4) 4| ≤ 2 * |(3/2 : ℚ) - 5/4|) :=
  c7_phase_monotone_and_level_continuous (fun _ => 0) initControls
    ⟨1/31250, 0, 0, 0, 1⟩ 2 4 (3/2) (5/4)
    (by norm_num) (by norm_num) (by norm_num)
    (by norm_num [envShapeOf])
    (by norm_num [envPeriodSecOf, envPeriodOf, envPeriodRawOf, clock])
    (by norm_num) (by norm_num)
    (by norm_num)

/-- State of the lookahead scheduler of the main module: current frame
index, the virtual next-tick time in audio-clock seconds, whether the
interval timer is live, and a counter of Playing-to-Stopped transitions
(stopFrames only acts when the timer is live, mirroring the null check). -/
structure Sched where
  frameIdx : ℕ
  nextTime : ℚ
  running : Bool
  stops : ℕ
deriving DecidableEq

/-- stopFrames: clears the interval timer if it is set (counted as one
Stopped transition), otherwise does nothing. -/
def stopFrames (s : Sched) : Sched :=
  if s.running then { s with running := false, stops := s.stops + 1 } else s

/-- One wake-up of the lookahead scheduler (the while loop inside the
setInterval callback of startFrames): while the virtual next-tick time is
inside the lead window, either stop when the track is exhausted, or apply
the current frame, advance the frame index by one and the next-tick time
by one tick period.  Returns the new state and the list of frame indices
applied, in order. -/
def wakeLoop (N : ℕ) (spf ahead now : ℚ) (s : Sched) : Sched × List ℕ :=
  if s.nextTime < now + ahead then
    if _h : N ≤ s.frameIdx then (stopFrames s, [])
    else
      let r := wakeLoop N spf ahead now
        { s with frameIdx := s.frameIdx + 1, nextTime := s.nextTime + spf }
      (r.1, s.frameIdx :: r.2)
  else (s, [])
termination_by N - s.frameIdx
decreasing_by simp; omega

/-- A whole run of the scheduler: one wake-up per entry of the list of
wake-up times; once the timer is cleared the remaining wake-ups do nothing
(the interval no longer fires). -/
def runSched (N : ℕ) (spf ahead : ℚ) : List ℚ → Sched → Sched × List ℕ
  | [], s => (s, [])
  | t :: ts, s =>
    let r1 := if s.running then wakeLoop N spf ahead t s else (s, [])
    let r2 := runSched N spf ahead ts r1.1
    (r2.1, r1.2 ++ r2.2)

/-- The state set up by startFrames: frame index 0, next-tick time equal to
the current audio-clock time, timer live. -/
def startState (t0 : ℚ) : Sched := ⟨0, t0, true, 0⟩

lemma wakeLoop_spec (N : ℕ) (spf ahead now : ℚ) :
    ∀ (m : ℕ) (s : Sched), N - s.frameIdx ≤ m → s.running = true → s.frameIdx ≤ N →
      s.frameIdx ≤ (wakeLoop N spf ahead now s).1.frameIdx ∧
      (wakeLoop N spf ahead now s).1.frameIdx ≤ N ∧
      (wakeLoop N spf ahead now s).2 =
        List.range' s.frameIdx ((wakeLoop N spf ahead now s).1.frameIdx - s.frameIdx) ∧
      (wakeLoop N spf ahead now s).1.nextTime =
        s.nextTime + (((wakeLoop N spf ahead now s).1.frameIdx - s.frameIdx : ℕ) : ℚ) * spf ∧
      (((wakeLoop N spf ahead now s).1.running = true ∧
          (wakeLoop N spf ahead now s).1.stops = s.stops) ∨
        ((wakeLoop N spf ahead now s).1.running = false ∧
          (wakeLoop N spf ahead now s).1.stops = s.stops + 1 ∧
          (wakeLoop N spf ahead now s).1.frameIdx = N)) := by
  intro m
  induction m with
  | zero =>
    intro s hm hr hle
    have hidx : s.frameIdx = N := by omega
    by_cases hguard : s.nextTime < now + ahead
    · have hw : wakeLoop N spf ahead now s = (stopFrames s, []) := by
        rw [wakeLoop, if_pos hguard, dif_pos (by omega : N ≤ s.frameIdx)]
      rw [hw, stopFrames, if_pos hr]
      exact ⟨le_refl _, by simpa using hle, by simp, by simp,
        Or.inr ⟨rfl, rfl, by simpa using hidx⟩⟩
    · rw [wakeLoop, if_neg hguard]
      exact ⟨le_refl _, hle, by simp, by simp, Or.inl ⟨hr, rfl⟩⟩
  | succ m ih =>
    intro s hm hr hle
    by_cases hguard : s.nextTime < now + ahead
    · by_cases hidx : N ≤ s.frameIdx
      · have hw : wakeLoop N spf ahead now s = (stopFrames s, []) := by
          rw [wakeLoop, if_pos hguard, dif_pos hidx]
        have heq : s.frameIdx = N := le_antisymm hle hidx
        rw [hw, stopFrames, if_pos hr]
        exact ⟨le_refl _, by simpa using hle, by simp, by simp,
          Or.inr ⟨rfl, rfl, by simpa using heq⟩⟩
      · have hlt : s.frameIdx < N := lt_of_not_le hidx
        have hw : wakeLoop N spf ahead now s = ((wakeLoop N spf ahead now { s with frameIdx := s.frameIdx + 1, nextTime := s.nextTime + spf }).1, s.frameIdx :: (wakeLoop N spf ahead now { s with frameIdx := s.frameIdx + 1, nextTime := s.nextTime + spf }).2) := by
          rw [wakeLoop, if_pos hguard, dif_neg hidx]
        obtain ⟨ha, hb, hc, hd, he⟩ := ih { s with frameIdx := s.frameIdx + 1, nextTime := s.nextTime + spf } (by dsimp only; omega) hr (by dsimp only; omega)
        dsimp only at ha hb hc hd he
        rw [hw]
        dsimp only
        refine ⟨by omega, hb, ?_, ?_, he⟩
        · rw [hc]
          have hk : (wakeLoop N spf ahead now { s with frameIdx := s.frameIdx + 1, nextTime := s.nextTime + spf }).1.frameIdx - s.frameIdx = ((wakeLoop N spf ahead now { s with frameIdx := s.frameIdx + 1, nextTime := s.nextTime + spf }).1.frameIdx - (s.frameIdx + 1)) + 1 := by
            omega
          rw [hk, List.range'_succ]
        · rw [hd]
          have hk : ((wakeLoop N spf ahead now { s with frameIdx := s.frameIdx + 1, nextTime := s.nextTime + spf }).1.frameIdx - s.frameIdx : ℕ) = ((wakeLoop N spf ahead now { s with frameIdx := s.frameIdx + 1, nextTime := s.nextTime + spf }).1.frameIdx - (s.frameIdx + 1) : ℕ) + 1 := by
            omega
          rw [hk]
          push_cast
          ring
    · rw [wakeLoop, if_neg hguard]
      exact ⟨le_refl _, hle, by simp, by simp, Or.inl ⟨hr, rfl⟩⟩

lemma wakeLoop_complete (N : ℕ) (spf ahead now : ℚ) (hspf : 0 < spf) :
    ∀ (m : ℕ) (s : Sched), N - s.frameIdx ≤ m → s.running = true → s.frameIdx ≤ N →
      s.nextTime + ((N - s.frameIdx : ℕ) : ℚ) * spf < now + ahead →
      wakeLoop N spf ahead now s =
        ({ frameIdx := N, nextTime := s.nextTime + ((N - s.frameIdx : ℕ) : ℚ) * spf,
           running := false, stops := s.stops + 1 },
         List.range' s.frameIdx (N - s.frameIdx)) := by
  intro m
  induction m with
  | zero =>
    intro s hm hr hle hbig
    have hidx : s.frameIdx = N := by omega
    have hk0 : N - s.frameIdx = 0 := by omega
    have hguard : s.nextTime < now + ahead := by
      rw [hk0] at hbig
      simpa using hbig
    have hw : wakeLoop N spf ahead now s = (stopFrames s, []) := by
      rw [wakeLoop, if_pos hguard, dif_pos (by omega : N ≤ s.frameIdx)]
    rw [hw, stopFrames, if_pos hr, hk0]
    simp [hidx]
  | succ m ih =>
    intro s hm hr hle hbig
    by_cases hidx : N ≤ s.frameIdx
    · have heq : s.frameIdx = N := le_antisymm hle hidx
      have hk0 : N - s.frameIdx = 0 := by omega
      have hguard : s.nextTime < now + ahead := by
        rw [hk0] at hbig
        simpa using hbig
      have hw : wakeLoop N spf ahead now s = (stopFrames s, []) := by
        rw [wakeLoop, if_pos hguard, dif_pos hidx]
      rw [hw, stopFrames, if_pos hr, hk0]
      simp [heq]
    · have hlt : s.frameIdx < N := lt_of_not_le hidx
      have hk1 : (1 : ℚ) ≤ ((N - s.frameIdx : ℕ) : ℚ) := by
        have : 1 ≤ N - s.frameIdx := by omega
        exact_mod_cast this
      have hguard : s.nextTime < now + ahead := by nlinarith
      have hw : wakeLoop N spf ahead now s = ((wakeLoop N spf ahead now { s with frameIdx := s.frameIdx + 1, nextTime := s.nextTime + spf }).1, s.frameIdx :: (wakeLoop N spf ahead now { s with frameIdx := s.frameIdx + 1, nextTime := s.nextTime + spf }).2) := by
        rw [wakeLoop, if_pos hguard, dif_neg hidx]
      have hcast : ((N - (s.frameIdx + 1) : ℕ) : ℚ) = ((N - s.frameIdx : ℕ) : ℚ) - 1 := by
        have h1 : N - (s.frameIdx + 1) = (N - s.frameIdx) - 1 := by omega
        rw [h1]
        have h2 : 1 ≤ N - s.frameIdx := by omega
        push_cast [h2]
        ring
      have hrec := ih { s with frameIdx := s.frameIdx + 1, nextTime := s.nextTime + spf } (by dsimp only; omega) hr (by dsimp only; omega)
        (by
          dsimp only
          rw [hcast]
          ring_nf
          ring_nf at hbig
          linarith)
      rw [hw, hrec]
      dsimp only
      rw [hcast]
      have hnt : s.nextTime + spf + (((N - s.frameIdx : ℕ) : ℚ) - 1) * spf =
          s.nextTime + ((N - s.frameIdx : ℕ) : ℚ) * spf := by ring
      rw [hnt]
      have hk : N - s.frameIdx = (N - (s.frameIdx + 1)) + 1 := by omega
      rw [hk, List.range'_succ]

lemma runSched_not_running (N : ℕ) (spf ahead : ℚ) :
    ∀ (ts : List ℚ) (s : Sched), s.running = false →
      runSched N spf ahead ts s = (s, []) := by
  intro ts
  induction ts with
  | nil => intro s _; rfl
  | cons t ts ih =>
    intro s hs
    rw [runSched]
    rw [if_neg (by rw [hs]; simp : ¬ s.running = true)]
    dsimp only
    rw [ih s hs]
    rfl

lemma runSched_inv (N : ℕ) (spf ahead t0 : ℚ) (hspf : 0 < spf) :
    ∀ (ts : List ℚ) (s : Sched),
      s.frameIdx ≤ N →
      s.nextTime = t0 + (s.frameIdx : ℚ) * spf →
      ((s.running = true ∧ s.stops = 0) ∨
        (s.running = false ∧ s.stops = 1 ∧ s.frameIdx = N)) →
      (runSched N spf ahead ts s).1.frameIdx ≤ N ∧
      (runSched N spf ahead ts s).1.nextTime =
        t0 + ((runSched N spf ahead ts s).1.frameIdx : ℚ) * spf ∧
      (((runSched N spf ahead ts s).1.running = true ∧
          (runSched N spf ahead ts s).1.stops = 0) ∨
        ((runSched N spf ahead ts s).1.running = false ∧
          (runSched N spf ahead ts s).1.stops = 1 ∧
          (runSched N spf ahead ts s).1.frameIdx = N)) ∧
      s.frameIdx ≤ (runSched N spf ahead ts s).1.frameIdx ∧
      (runSched N spf ahead ts s).2 =
        List.range' s.frameIdx ((runSched N spf ahead ts s).1.frameIdx - s.frameIdx) ∧
      ((∃ t ∈ ts, t0 + (N : ℚ) * spf < t + ahead) →
        (runSched N spf ahead ts s).1.running = false) := by
  intro ts
  induction ts with
  | nil =>
    intro s h1 h2 h3
    refine ⟨h1, h2, h3, le_refl _, by simp [runSched], ?_⟩
    rintro ⟨t, ht, _⟩
    simp at ht
  | cons t ts ih =>
    intro s h1 h2 h3
    rcases h3 with ⟨hrun, hstops⟩ | ⟨hrun, hstops, hidx⟩
    · -- the timer is live: this wake-up executes the loop
      have hw := wakeLoop_spec N spf ahead t (N - s.frameIdx) s (le_refl _) hrun h1
      obtain ⟨ha, hb, hc, hd, he⟩ := hw
      set s1 := (wakeLoop N spf ahead t s).1 with hs1def
      have hrw : runSched N spf ahead (t :: ts) s =
          ((runSched N spf ahead ts s1).1,
            (wakeLoop N spf ahead t s).2 ++ (runSched N spf ahead ts s1).2) := by
        rw [runSched, if_pos hrun]
      have hs1nt : s1.nextTime = t0 + (s1.frameIdx : ℚ) * spf := by
        rw [hd, h2]
        have : ((s1.frameIdx - s.frameIdx : ℕ) : ℚ) = (s1.frameIdx : ℚ) - s.frameIdx := by
          have := ha
          push_cast [Nat.cast_sub ha]
          ring
        rw [this]
        ring
      have hs1inv : (s1.running = true ∧ s1.stops = 0) ∨
          (s1.running = false ∧ s1.stops = 1 ∧ s1.frameIdx = N) := by
        rcases he with ⟨x, y⟩ | ⟨x, y, z⟩
        · exact Or.inl ⟨x, by rw [y, hstops]⟩
        · exact Or.inr ⟨x, by rw [y, hstops], z⟩
      have hih := ih s1 hb hs1nt hs1inv
      obtain ⟨i1, i2, i3, i4, i5, i6⟩ := hih
      rw [hrw]
      dsimp only
      refine ⟨i1, i2, i3, by omega, ?_, ?_⟩
      · rw [hc, i5]
        have happ := List.range'_append_1 s.frameIdx (s1.frameIdx - s.frameIdx)
          ((runSched N spf ahead ts s1).1.frameIdx - s1.frameIdx)
        rw [show s.frameIdx + (s1.frameIdx - s.frameIdx) = s1.frameIdx by omega] at happ
        rw [happ]
        congr 1
        omega
      · rintro ⟨t2, ht2, hbig⟩
        rcases List.mem_cons.mp ht2 with rfl | hmem
        · -- this very wake-up finishes the track
          have hcomp := wakeLoop_complete N spf ahead t2 hspf (N - s.frameIdx) s
            (le_refl _) hrun h1
            (by
              rw [h2]
              have : ((N - s.frameIdx : ℕ) : ℚ) = (N : ℚ) - s.frameIdx := by
                push_cast [Nat.cast_sub h1]
                ring
              rw [this]
              ring_nf
              ring_nf at hbig
              linarith)
          have hs1run : s1.running = false := by
            rw [hs1def, hcomp]
          rw [runSched_not_running N spf ahead ts s1 hs1run]
          exact hs1run
        · exact i6 ⟨t2, hmem, hbig⟩
    · -- the timer is already cleared: nothing more happens
      have hstop := runSched_not_running N spf ahead (t :: ts) s hrun
      rw [hstop]
      exact ⟨h1, h2, Or.inr ⟨hrun, hstops, hidx⟩, le_refl _, by simp,
        fun _ => hrun⟩

/-- C2: for every track of N frames and tick rate R > 0, a run of the
lookahead scheduler whose wake-up times reach far enough to drain the track
applies exactly the frames 0, 1, ..., N-1, each exactly once and in index
order, finishing with the timer cleared and exactly one Playing-to-Stopped
transition; and each wake-up is the loop that, while nextTickTime <
currentAudioClockTime + leadWindow and frameIndex < N, applies frame
frameIndex and then increments frameIndex by 1 and nextTickTime by 1/R. -/
theorem c2_scheduler_applies_each_frame_exactly_once
    (N : ℕ) (R t0 ahead now : ℚ) (ts : List ℚ) (s : Sched)
    (hR : 0 < R)
    (hdone : ∃ t ∈ ts, t0 + (N : ℚ) * (1/R) < t + ahead)
    (hguard : s.nextTime < now + ahead) (hidx : s.frameIdx < N) :
    ((runSched N (1/R) ahead ts (startState t0)).2 = List.range N ∧
      (runSched N (1/R) ahead ts (startState t0)).1.running = false ∧
      (runSched N (1/R) ahead ts (startState t0)).1.stops = 1 ∧
      (runSched N (1/R) ahead ts (startState t0)).1.frameIdx = N) ∧
    wakeLoop N (1/R) ahead now s =
      ((wakeLoop N (1/R) ahead now
          { s with frameIdx := s.frameIdx + 1, nextTime := s.nextTime + 1/R }).1,
        s.frameIdx :: (wakeLoop N (1/R) ahead now
          { s with frameIdx := s.frameIdx + 1, nextTime := s.nextTime + 1/R }).2) := by
  constructor
  · have hspf : 0 < 1/R := by positivity
    have hinv := runSched_inv N (1/R) ahead t0 hspf ts (startState t0)
      (by simp [startState]) (by simp [startState]) (Or.inl ⟨rfl, rfl⟩)
    obtain ⟨i1, i2, i3, i4, i5, i6⟩ := hinv
    have hrunF := i6 hdone
    have hfin : (runSched N (1/R) ahead ts (startState t0)).1.stops = 1 ∧
        (runSched N (1/R) ahead ts (startState t0)).1.frameIdx = N := by
      rcases i3 with ⟨x, _⟩ | ⟨_, y, z⟩
      · rw [x] at hrunF; cases hrunF
      · exact ⟨y, z⟩
    refine ⟨?_, hrunF, hfin.1, hfin.2⟩
    rw [i5]
    have hsf : (startState t0).frameIdx = 0 := rfl
    rw [hsf, hfin.2, List.range_eq_range']
    norm_num
  · rw [wakeLoop, if_pos hguard, dif_neg (not_le.mpr hidx)]

theorem c2_witness :
    ((runSched 2 (1/50) (2/25) [10] (startState 0)).2 = List.range 2 ∧
      (runSched 2 (1/50) (2/25) [10] (startState 0)).1.running = false ∧
      (runSched 2 (1/50) (2/25) [10] (startState 0)).1.stops = 1 ∧
      (runSched 2 (1/50) (2/25) [10] (startState 0)).1.frameIdx = 2) ∧
    wakeLoop 2 (1/50) (2/25) 0 ⟨0, 0, true, 0⟩ =
      ((wakeLoop 2 (1/50) (2/25) 0 { (⟨0, 0, true, 0⟩ : Sched) with frameIdx := (⟨0, 0, true, 0⟩ : Sched).frameIdx + 1, nextTime := (⟨0, 0, true, 0⟩ : Sched).nextTime + 1/50 }).1,
        (⟨0, 0, true, 0⟩ : Sched).frameIdx :: (wakeLoop 2 (1/50) (2/25) 0 { (⟨0, 0, true, 0⟩ : Sched) with frameIdx := (⟨0, 0, true, 0⟩ : Sched).frameIdx + 1, nextTime := (⟨0, 0, true, 0⟩ : Sched).nextTime + 1/50 }).2) :=
  c2_scheduler_applies_each_frame_exactly_once 2 50 0 (2/25) 0 [10] ⟨0, 0, true, 0⟩
    (by norm_num)
    ⟨10, by simp, by norm_num⟩
    (by norm_num) (by norm_num)

/-- Observable transport state of the AYReplayer: whether the interval
timer is live, the loaded frames and the tick rate. -/
structure Transport where
  timerOn : Bool
  frames : List (List ℕ)
  rate : ℚ
deriving DecidableEq

/-- The play method: returns immediately when the timer is already set or
the loaded track is empty, otherwise starts the interval timer. -/
def play (s : Transport) : Transport :=
  if s.timerOn = true ∨ s.frames.length = 0 then s else { s with timerOn := true }

/-- The stop method: clears the interval timer when set, otherwise does
nothing. -/
def stop (s : Transport) : Transport :=
  if s.timerOn = true then { s with timerOn := false } else s

/-- C9: play on an already-playing session is a no-op, play with an empty
track is a no-op, stop when not playing is a no-op; none of these calls
changes the observable state or fails, repeated stop is the same as one
stop, and a stopped session stays stopped under play-on-empty and stop. -/
theorem c9_transport_noops (s : Transport) :
    play { s with timerOn := true } = { s with timerOn := true } ∧
    play { s with frames := [] } = { s with frames := [] } ∧
    stop { s with timerOn := false } = { s with timerOn := false } ∧
    stop (stop s) = stop s ∧
    (play { s with timerOn := false, frames := [] }).timerOn = false ∧
    (stop { s with timerOn := false }).timerOn = false := by
  refine ⟨?_, ?_, ?_, ?_, ?_, ?_⟩
  · simp [play]
  · simp [play]
  · simp [stop]
  · by_cases h : s.timerOn = true
    · simp [stop, h]
    · simp [stop, h]
  · simp [play]
  · simp [stop]

/-- Parse failure of the YM loader, carrying the offending 4-byte tag. -/
inductive ParseError where
  | unsupportedVersion (tag : List ℕ)
deriving DecidableEq

/-- Track metadata produced by parseYM. -/
structure YMMeta where
  version : List ℕ
  framesCount : ℤ
  rate : ℕ
deriving DecidableEq

/-- A parsed track: metadata plus the per-frame register byte lists. -/
structure YMTrack where
  meta : YMMeta
  frames : List (List ℕ)
deriving DecidableEq

/-- Interpretation of a JavaScript 32-bit signed shift/or result. -/
def toSigned32 (n : ℕ) : ℤ :=
  if n % 2 ^ 32 < 2 ^ 31 then (n % 2 ^ 32 : ℤ) else (n % 2 ^ 32 : ℤ) - 2 ^ 32

/-- The supported container tags, as byte lists: YM5!, YM6!, YM3!. -/
def ymTags : List (List ℕ) :=
  [[89, 77, 53, 33], [89, 77, 54, 33], [89, 77, 51, 33]]

/-- The parseYM function of ymAyParser.js: rejects an unsupported 4-byte
tag with a descriptive error; reads the big-endian frame count from bytes
4..7 (a 32-bit signed value, as JavaScript shifts produce); uses header
offset 64, falling back to 16 when the buffer is too short for
offset 64 + frames * 16; then slices 16 register bytes per frame, slices
being clamped to the end of the buffer exactly as Uint8Array.slice does. -/
def parseYM (bytes : List ℕ) : Except ParseError YMTrack :=
  let tag := [bytes.getD 0 0, bytes.getD 1 0, bytes.getD 2 0, bytes.getD 3 0]
  if tag ∉ ymTags then .error (.unsupportedVersion tag)
  else
    let framesCount := toSigned32
      ((((bytes.getD 4 0 <<< 24) ||| (bytes.getD 5 0 <<< 16)) |||
        (bytes.getD 6 0 <<< 8)) ||| bytes.getD 7 0)
    let offset : ℕ := if (bytes.length : ℤ) < 64 + framesCount * 16 then 16 else 64
    let out := (List.range framesCount.toNat).map
      (fun f => (bytes.drop (offset + f * 16)).take 16)
    .ok { meta := { version := tag, framesCount := framesCount, rate := 50 },
          frames := out }

/-- The replayer-side track state that load(track) overwrites. -/
structure ReplayerLoadState where
  frames : List (List ℕ)
  rate : ℕ
deriving DecidableEq

/-- The load path of the main module: parse, and only on success replace
the replayer track (the catch branch leaves the replayer untouched and
surfaces the error). -/
def loadTrack (s : ReplayerLoadState) (bytes : List ℕ) :
    ReplayerLoadState × Option ParseError :=
  match parseYM bytes with
  | .error e => (s, some e)
  | .ok t =>
    ({ frames := t.frames, rate := if t.meta.rate = 0 then 50 else t.meta.rate }, none)

/-- C6 counterexample: a truncated input (tag YM5!, declared frame count 1,
but zero register bytes present) does NOT make the load fail: parseYM
falls back to offset 16 and returns a Track whose single frame has no
register bytes at all — a partially loaded Track, with no error. -/
theorem c6_counterexample :
    parseYM [89, 77, 53, 33, 0, 0, 0, 1] =
      .ok { meta := { version := [89, 77, 53, 33], framesCount := 1, rate := 50 },
            frames := [[]] } := by
  rfl

/-- C6 amended: for every input whose 4-byte container tag is not one of
the supported YM tags, parseYM fails with a descriptive error carrying the
tag, before any Track is constructed, and the failed load leaves the
previously loaded replayer track intact; truncated register data, however,
is not rejected: parseYM then falls back to offset 16 and still constructs
a Track (whose frames may hold fewer than 16 bytes), as the counterexample
shows. -/
theorem c6_bad_tag_fails_and_previous_track_intact
    (bytes : List ℕ) (prev : ReplayerLoadState)
    (hbad : [bytes.getD 0 0, bytes.getD 1 0, bytes.getD 2 0, bytes.getD 3 0] ∉ ymTags) :
    parseYM bytes =
      .error (.unsupportedVersion
        [bytes.getD 0 0, bytes.getD 1 0, bytes.getD 2 0, bytes.getD 3 0]) ∧
    (loadTrack prev bytes).1 = prev ∧
    (loadTrack prev bytes).2 ≠ none := by
  have hp : parseYM bytes =
      .error (.unsupportedVersion
        [bytes.getD 0 0, bytes.getD 1 0, bytes.getD 2 0, bytes.getD 3 0]) := by
    rw [parseYM, if_pos hbad]
  refine ⟨hp, ?_, ?_⟩
  · rw [loadTrack, hp]
  · rw [loadTrack, hp]
    simp

theorem c6_witness :
    (parseYM [0, 1, 2] =
      .error (.unsupportedVersion [0, 1, 2, 0]) ∧
    (loadTrack ⟨[[7]], 50⟩ [0, 1, 2]).1 = ⟨[[7]], 50⟩ ∧
    (loadTrack ⟨[[7]], 50⟩ [0, 1, 2]).2 ≠ none) :=
  c6_bad_tag_fails_and_previous_track_intact [0, 1, 2] ⟨[[7]], 50⟩ (by decide)

end AY
